import Mathlib

/-!
Verification of the `command` package (`src/command.go`), a CLI dispatch
library: a tree of named commands with per-node flag sets, flag inheritance
along the dispatched path, middleware composition, and a usage renderer.

The embedding models Go's `flag` package for string-valued flags: a flag's
mutable value is a cell in an explicit `Store`, and a `FlagDef` holds the
cell index, so that registering the same `flag.Value` in two flag sets
(what `Execute` does when it propagates flags to a subcommand) is visible
as two flag definitions sharing one cell.
-/

/-- The heap of flag values: cell `i` holds the current string value. -/
def Store := List String

/-- Read a cell; out-of-range reads return the empty string. -/
def Store.read (st : Store) (c : Nat) : String :=
  List.getD st c ""

/-- Write a cell (models `flag.Value.Set` on a string value). -/
def Store.write (st : Store) (c : Nat) (v : String) : Store :=
  List.set st c v

instance : DecidableEq Store := by
  unfold Store
  infer_instance

/-- One flag registered in a flag set: `flag.Flag` with the `Value`
pointer replaced by a cell index into the `Store`. -/
structure FlagDef where
  name : String
  usageText : String
  defValue : String
  cell : Nat
  deriving DecidableEq

/-- A `flag.FlagSet`: the registered flags in registration order. -/
structure FlagSet where
  flags : List FlagDef
  deriving DecidableEq

/-- Find a registered flag by name (Go's `formal[name]` map lookup). -/
def FlagSet.lookup (fs : FlagSet) (n : String) : Option FlagDef :=
  fs.flags.find? (fun f => f.name == n)

/-- The names registered in a flag set. -/
def FlagSet.names (fs : FlagSet) : List String :=
  fs.flags.map (fun f => f.name)

/-- Split `name=value` at the first `=` (Go scans from index 1, so a
leading character is never a split point; callers reject a leading `=`). -/
def splitEqAux (acc : List Char) : List Char → List Char × Option (List Char)
  | [] => (acc.reverse, none)
  | c :: cs => if c = '=' then (acc.reverse, some cs) else splitEqAux (c :: acc) cs

/-- Split a flag body into its name and optional `=`-attached value. -/
def splitEq : List Char → List Char × Option (List Char)
  | [] => ([], none)
  | c :: cs =>
    match splitEqAux [c] cs with
    | (nm, v) => (nm, v)

/-- Outcome of `flag.FlagSet.Parse`.  With `flag.ExitOnError`, `err`
terminates the process with status 2 after printing the message and the
usage text, and `help` (an undeclared `-h`/`-help`) prints the usage text
and terminates with status 0. -/
inductive ParseOut where
  | ok (rest : List String) (store : Store)
  | err (msg : String) (store : Store)
  | help (store : Store)
  deriving DecidableEq

/-- The shape of one leading token, before any flag-set lookup. -/
inductive TokShape where
  | stop
  | terminator
  | bad (msg : String)
  | flagged (name : String) (value : Option String)
  deriving DecidableEq

/-- Dissect one leading token the way `flag.(*FlagSet).parseOne` does: a
token shorter than two characters or without a leading `-` stops parsing;
a bare `--` terminates it; a name starting with `-` or `=` is bad syntax;
otherwise the token carries a flag name, possibly with an `=`-attached
value. -/
def tokShape (s : String) : TokShape :=
  let cs := s.data
  if cs.length < 2 then .stop
  else if cs.head? ≠ some '-' then .stop
  else if cs[1]? = some '-' ∧ cs.length = 2 then .terminator
  else
    let nm := if cs[1]? = some '-' then cs.drop 2 else cs.drop 1
    if nm = [] ∨ nm.head? = some '-' ∨ nm.head? = some '=' then
      .bad ("bad flag syntax: " ++ s ++ "\n")
    else
      .flagged (String.mk (splitEq nm).1) ((splitEq nm).2.map String.mk)

/-- How `parseOne` treats one leading token. -/
inductive TokClass where
  | stop
  | terminator
  | bad (msg : String)
  | wantHelp
  | unknown (name : String)
  | withValue (f : FlagDef) (v : String)
  | needsValue (f : FlagDef)
  deriving DecidableEq

/-- Resolve a token's shape against the flag set: an unknown name is an
error unless it is `help` or `h`; a known flag either carries its value
or needs one from the next token. -/
def classifyTok (fs : FlagSet) (s : String) : TokClass :=
  match tokShape s with
  | .stop => .stop
  | .terminator => .terminator
  | .bad msg => .bad msg
  | .flagged name v =>
    match fs.lookup name with
    | none =>
      if name = "help" ∨ name = "h" then .wantHelp
      else .unknown name
    | some f =>
      match v with
      | some v => .withValue f v
      | none => .needsValue f

/-- Go's `flag.FlagSet.Parse` restricted to string-valued flags: consume a
leading run of `-name`, `--name`, `-name=value`, `-name value` tokens,
stop at the first non-flag token or after a bare `--`, and return the
remaining tokens; an unknown flag is an error unless it is named `help` or
`h`, which requests the usage text instead. -/
def parseFlags (fs : FlagSet) : List String → Store → ParseOut
  | [], store => .ok [] store
  | s :: rest, store =>
    match classifyTok fs s with
    | .stop => .ok (s :: rest) store
    | .terminator => .ok rest store
    | .bad msg => .err msg store
    | .wantHelp => .help store
    | .unknown name => .err ("flag provided but not defined: -" ++ name ++ "\n") store
    | .withValue f v => parseFlags fs rest (store.write f.cell v)
    | .needsValue f =>
      match rest with
      | v :: rest2 => parseFlags fs rest2 (store.write f.cell v)
      | [] => .err ("flag needs an argument: -" ++ f.name ++ "\n") store

/-- Insert a flag into a name-sorted list (for `VisitAll`'s sorted order). -/
def insertSorted (f : FlagDef) : List FlagDef → List FlagDef
  | [] => [f]
  | g :: gs => if f.name < g.name then f :: g :: gs else g :: insertSorted f gs

/-- The lexicographic-by-name order in which `flag.FlagSet.VisitAll`
visits the registered flags. -/
def sortFlags (l : List FlagDef) : List FlagDef :=
  l.foldr insertSorted []

/-- Go's `flag.FlagSet.Var`: register an existing value (a cell) under a
name; registering a name twice panics (`flag redefined`).  The default
shown in help text is the value's current string at registration time. -/
def varRegister (fs : FlagSet) (cell : Nat) (name usageText : String) (store : Store) :
    Except String FlagSet :=
  match fs.lookup name with
  | some _ => .error ("flag redefined: " ++ name)
  | none => .ok ⟨fs.flags ++ [⟨name, usageText, store.read cell, cell⟩]⟩

/-- The flag propagation step of `Execute` (src/command.go lines 106-108):
`command.flagSet.VisitAll(func(f) ... subCommand.flagSet.Var(f.Value, f.Name, f.Usage))`.
The parent's flags are passed already in `VisitAll`'s sorted order.
A `Var` panic propagates. -/
def propagateFlags (child : FlagSet) (parentFlags : List FlagDef) (store : Store) :
    Except String FlagSet :=
  match parentFlags with
  | [] => .ok child
  | f :: fsRest =>
    match varRegister child f.cell f.name f.usageText store with
    | .error e => .error e
    | .ok child' => propagateFlags child' fsRest store

/-- What a handler invocation produces: the lines it writes (handler side
effects are its own business) and the error value it returns. -/
structure HandlerOut where
  out : List String
  err : Option String
  deriving DecidableEq

/-- A command handler: `func(context.Context, *flag.FlagSet, []string) error`.
It observes its flag set through the store of flag-value cells. -/
def Handler := FlagSet → Store → List String → HandlerOut

/-- A middleware wraps a handler: `func(Handler) Handler`. -/
def Middleware := Handler → Handler

/-- A command node (`type command struct`): name, help text, middleware
list, optional handler, named children, and its own flag set.  The Go
`parent` back-pointer is not stored; the ancestor path is passed where the
source walks the parent chain. -/
inductive Cmd where
  | mk (name : String) (help : String) (middlewares : List Middleware)
      (handler : Option Handler) (subCommands : List (String × Cmd)) (flagSet : FlagSet)

def Cmd.name : Cmd → String
  | .mk n _ _ _ _ _ => n

def Cmd.help : Cmd → String
  | .mk _ h _ _ _ _ => h

def Cmd.middlewares : Cmd → List Middleware
  | .mk _ _ m _ _ _ => m

def Cmd.handler : Cmd → Option Handler
  | .mk _ _ _ h _ _ => h

def Cmd.subCommands : Cmd → List (String × Cmd)
  | .mk _ _ _ _ s _ => s

def Cmd.flagSet : Cmd → FlagSet
  | .mk _ _ _ _ _ fs => fs

/-- Child lookup: `command.subCommands[args[0]]`. -/
def Cmd.findChild (c : Cmd) (n : String) : Option Cmd :=
  (c.subCommands.find? (fun p => p.1 == n)).map (fun p => p.2)

/-- The fresh node `SubCommand` creates: empty flag set, no handler, no
children (src/command.go lines 64-75). -/
def Cmd.freshNode (n : String) : Cmd :=
  .mk n "" [] none [] ⟨[]⟩

/-- Go map assignment `m[name] = v` on the insertion-ordered model of the
children map: replace an existing binding, else append. -/
def setAssoc (l : List (String × Cmd)) (n : String) (v : Cmd) : List (String × Cmd) :=
  match l with
  | [] => [(n, v)]
  | p :: ps => if p.1 = n then (n, v) :: ps else p :: setAssoc ps n v

/-- `SubCommand(name)`: store a fresh node under `name` (overwriting any
existing child) and return the updated parent together with the handle to
the new child. -/
def Cmd.subCommand (c : Cmd) (n : String) : Cmd × Cmd :=
  (.mk c.name c.help c.middlewares c.handler (setAssoc c.subCommands n (Cmd.freshNode n))
     c.flagSet,
   Cmd.freshNode n)

/-- Apply a configuration function to the child bound to `n` (models
further builder calls through the handle `SubCommand` returned). -/
def Cmd.configureChild (c : Cmd) (n : String) (cfg : Cmd → Cmd) : Cmd :=
  .mk c.name c.help c.middlewares c.handler
    (c.subCommands.map (fun p => if p.1 = n then (p.1, cfg p.2) else p))
    c.flagSet

/-- Render one flag for `PrintDefaults` (string flags). -/
def printOneDefault (f : FlagDef) : String :=
  "  -" ++ f.name ++ " string\n    \t" ++ f.usageText ++
    (if f.defValue = "" then "" else " (default \"" ++ f.defValue ++ "\")") ++ "\n"

/-- `flag.FlagSet.PrintDefaults`: the registered flags in sorted order. -/
def printDefaults (fs : FlagSet) : String :=
  String.join ((sortFlags fs.flags).map printOneDefault)

/-- The usage renderer (src/command.go lines 145-206), written as the
source builds it: the `Usage:` line from the full root-to-node path plus
an `[OPTIONS]` hint when flags exist plus a `COMMAND`/`[COMMAND]` hint
when children exist, then the help text, the flags, and the children.
`anc` is the name path the source recovers from the `parent` chain, and
`fs` the node's flag set (possibly already holding inherited flags). -/
def usageOf (nodeName nodeHelp : String) (hasHandler : Bool)
    (childInfo : List (String × String)) (fs : FlagSet) (anc : List String) : String :=
  let fullCommand := anc ++ [nodeName]
  let nbFlags := fs.flags.length
  let optionsHint := if nbFlags > 0 then " [OPTIONS]" else ""
  let subCommandHint :=
    if childInfo.length > 0 then (if hasHandler then " [COMMAND]" else " COMMAND") else ""
  let b := "Usage: " ++ String.intercalate " " fullCommand ++ optionsHint ++ subCommandHint ++ "\n"
  let b := b ++ (if nodeHelp ≠ "" then "\n" ++ nodeHelp ++ "\n" else "")
  let b := b ++ (if nbFlags > 0 then "\nOptions:\n" ++ printDefaults fs else "")
  let b := b ++
    (if childInfo.length > 0 then
      "\nSubcommands:" ++
        String.join (childInfo.map (fun p =>
          "\n  " ++ p.1 ++ (if p.2 ≠ "" then "\n\t" ++ p.2 else "")))
    else "")
  b ++ "\n"

/-- The usage text of a node reached along ancestor path `anc`, with `fs`
the flag set the node holds at that point. -/
def Cmd.usageRender (c : Cmd) (fs : FlagSet) (anc : List String) : String :=
  usageOf c.name c.help c.handler.isSome (c.subCommands.map (fun p => (p.1, p.2.help))) fs anc

/-- One node of the dispatched path: its name, its own (locally declared)
flag set, and its flag set after ancestor flags were propagated into it. -/
structure PathEntry where
  entryName : String
  localFs : FlagSet
  resolvedFs : FlagSet

/-- The outcome of the dispatch loop: a process exit (with its code and
everything printed), a panic (duplicate flag registration), or the
dispatch of a resolved handler with its flag set, residual positional
arguments and accumulated middleware. -/
inductive CoreResult where
  | exit (code : Nat) (output : String) (store : Store) (trace : List PathEntry)
  | panicked (msg : String) (store : Store) (trace : List PathEntry)
  | dispatch (h : Handler) (fs : FlagSet) (args : List String)
      (mws : List Middleware) (store : Store) (trace : List PathEntry)

/-- The dispatched path recorded in a result. -/
def CoreResult.trace : CoreResult → List PathEntry
  | .exit _ _ _ tr => tr
  | .panicked _ _ tr => tr
  | .dispatch _ _ _ _ _ tr => tr

/-- The tail of `Execute` after the loop (src/command.go lines 115-132):
no handler with leftover positionals is `command provided but not
defined` plus usage and exit 2; no handler with none is usage and exit 0;
otherwise the handler is dispatched with the accumulated middleware. -/
def finalize (cur : Cmd) (curFs : FlagSet) (rest : List String) (store : Store)
    (mws : List Middleware) (anc : List String) (trace : List PathEntry) : CoreResult :=
  match cur.handler with
  | none =>
    match rest with
    | tok :: _ =>
      .exit 2 ("command provided but not defined: " ++ tok ++ "\n" ++ cur.usageRender curFs anc)
        store trace
    | [] => .exit 0 (cur.usageRender curFs anc) store trace
  | some h => .dispatch h curFs rest mws store trace

/-- The dispatch loop of `Execute` (src/command.go lines 90-113): parse
the current flag set, stop on an empty positional remainder or a first
token that names no child, else propagate the current flags into the
child, append its middleware, and descend.  `fuel` bounds the recursion;
each descent consumes at least one token, so `args.length + 1` always
suffices (`execLoop_total`). -/
def execLoop (fuel : Nat) (cur : Cmd) (curFs : FlagSet) (args : List String) (store : Store)
    (mws : List Middleware) (anc : List String) (trace : List PathEntry) :
    Option CoreResult :=
  match fuel with
  | 0 => none
  | fuel' + 1 =>
    match parseFlags curFs args store with
    | .err msg store' => some (.exit 2 (msg ++ cur.usageRender curFs anc) store' trace)
    | .help store' => some (.exit 0 (cur.usageRender curFs anc) store' trace)
    | .ok rest store' =>
      match rest with
      | [] => some (finalize cur curFs [] store' mws anc trace)
      | tok :: restTail =>
        match cur.findChild tok with
        | none => some (finalize cur curFs (tok :: restTail) store' mws anc trace)
        | some sub =>
          match propagateFlags sub.flagSet (sortFlags curFs.flags) store' with
          | .error pm => some (.panicked pm store' trace)
          | .ok subFs =>
            execLoop fuel' sub subFs restTail store' (mws ++ sub.middlewares)
              (anc ++ [cur.name]) (trace ++ [⟨tok, sub.flagSet, subFs⟩])

/-- `Execute` up to handler invocation: start at the root with its own
middleware list cloned (src/command.go lines 88-89). -/
def executeCore (c : Cmd) (args : List String) (store : Store) : Option CoreResult :=
  execLoop (args.length + 1) c c.flagSet args store c.middlewares [] [⟨c.name, c.flagSet, c.flagSet⟩]

/-- The middleware composition of src/command.go lines 127-130: the loop
`for i := len(middlewares)-1; i >= 0; i--` wraps from the last-appended
middleware inward, i.e. a right fold, leaving the first-appended (the
root's) outermost. -/
def composeMiddlewares (mws : List Middleware) (h : Handler) : Handler :=
  mws.foldr (fun m acc => m acc) h

/-- What a whole `Execute` call does, as observed by the caller. -/
inductive ExecResult where
  | exited (code : Nat) (output : String)
  | panicked (msg : String)
  | returned (out : List String) (err : Option String)
  deriving DecidableEq

/-- `Execute(ctx)` (src/command.go lines 87-133): run the dispatch loop
and, when a handler was resolved, return exactly what the composed
handler returns. -/
def Cmd.execute (c : Cmd) (args : List String) (store : Store) : Option ExecResult :=
  match executeCore c args store with
  | none => none
  | some (.exit code out _ _) => some (.exited code out)
  | some (.panicked m _ _) => some (.panicked m)
  | some (.dispatch h fs rest mws store' _) =>
    let ho := composeMiddlewares mws h fs store' rest
    some (.returned ho.out ho.err)

/-- The exit code of an outcome, when the process terminated. -/
def exitCodeOf : ExecResult → Option Nat
  | .exited code _ => some code
  | _ => none

/-- The resolution algorithm as the spec states it (section 4.3 steps
1-3): parse the current node's flag set against the remaining arguments;
stop when the positional remainder is empty or its first token names no
child; otherwise propagate the flags gathered so far into the child and
descend.  Returns the resolved node, its flag set, the residual
positional tokens, the store, and the names of its strict ancestors. -/
def resolveSpecAux (fuel : Nat) (cur : Cmd) (curFs : FlagSet) (args : List String)
    (store : Store) (anc : List String) :
    Option (Cmd × FlagSet × List String × Store × List String) :=
  match fuel with
  | 0 => none
  | fuel' + 1 =>
    match parseFlags curFs args store with
    | .err _ _ => none
    | .help _ => none
    | .ok rest store' =>
      match rest with
      | [] => some (cur, curFs, [], store', anc)
      | tok :: restTail =>
        match cur.findChild tok with
        | none => some (cur, curFs, tok :: restTail, store', anc)
        | some sub =>
          match propagateFlags sub.flagSet (sortFlags curFs.flags) store' with
          | .error _ => none
          | .ok subFs => resolveSpecAux fuel' sub subFs restTail store' (anc ++ [cur.name])

/-- Spec-side resolution of a dispatch, started at the root. -/
def resolveSpec (c : Cmd) (args : List String) (store : Store) :
    Option (Cmd × FlagSet × List String × Store × List String) :=
  resolveSpecAux (args.length + 1) c c.flagSet args store []

/-- The flag name carried by a well-formed flag token (`-name`, `--name`,
`-name=value`), mirroring how `parseOne` dissects a token; `none` for a
token that is not flag-like, for the bare `--` terminator, and for the
malformed shapes `parseOne` rejects as bad syntax. -/
def flagTokenName (s : String) : Option String :=
  match tokShape s with
  | .flagged name _ => some name
  | _ => none

/-- The usage text as claim C7 describes it, clause by clause: the
space-joined root-to-node path, an options marker exactly when at least
one flag is declared, a subcommand marker when children exist (required
form without a handler, optional form with one), then help text, flags,
and direct children with their help. -/
def usageSpecOf (nodeName nodeHelp : String) (hasHandler : Bool)
    (childInfo : List (String × String)) (fs : FlagSet) (anc : List String) : String :=
  "Usage: " ++ String.intercalate " " (anc ++ [nodeName]) ++
    (if fs.flags ≠ [] then " [OPTIONS]" else "") ++
    (if childInfo ≠ [] then (if hasHandler then " [COMMAND]" else " COMMAND") else "") ++
    "\n" ++
    (if nodeHelp ≠ "" then "\n" ++ nodeHelp ++ "\n" else "") ++
    (if fs.flags ≠ [] then "\nOptions:\n" ++ printDefaults fs else "") ++
    (if childInfo ≠ [] then
      "\nSubcommands:" ++
        String.join (childInfo.map (fun p =>
          "\n  " ++ p.1 ++ (if p.2 ≠ "" then "\n\t" ++ p.2 else "")))
    else "") ++
    "\n"

/-- A tracing middleware: tags its entry before the wrapped handler runs
and its exit after it, making the composition order observable. -/
def wrapMw (tag : String) : Middleware :=
  fun h => fun fs st args =>
    let r := h fs st args
    ⟨(tag ++ ":before") :: r.out ++ [tag ++ ":after"], r.err⟩

/-- A demo handler that reports the positional arguments it received. -/
def demoEchoHandler : Handler :=
  fun _ _ args => ⟨["echo ran: " ++ String.intercalate " " args], none⟩

/-- A demo handler that returns an error value. -/
def demoFailHandler : Handler :=
  fun _ _ _ => ⟨["list ran"], some "boom"⟩

/-- Flag-value cells of the demo tree: level, case, user, verbose, the
clashing level. -/
def demoStore : Store := ["info", "", "", "false", ""]

/-- Demo leaf with a `case` flag and a handler. -/
def demoEcho : Cmd :=
  .mk "echo" "echo the arguments" [wrapMw "echo"] (some demoEchoHandler) []
    ⟨[⟨"case", "casing", "", 1⟩]⟩

/-- Demo leaf with a `user` flag and a handler that fails. -/
def demoList : Cmd :=
  .mk "list" "list repositories" [] (some demoFailHandler) [] ⟨[⟨"user", "the user", "", 2⟩]⟩

/-- Demo router node with a child and no handler. -/
def demoRepos : Cmd :=
  .mk "repos" "repo commands" [] none [("list", demoList)] ⟨[]⟩

/-- Demo sibling branch declaring a `verbose` flag nothing else declares. -/
def demoSib : Cmd :=
  .mk "sib" "sibling branch" [] none [] ⟨[⟨"verbose", "noisy", "false", 3⟩]⟩

/-- Demo leaf whose local `level` flag clashes with the root's. -/
def demoClash : Cmd :=
  .mk "clash" "clashing leaf" [] (some demoEchoHandler) [] ⟨[⟨"level", "dup", "", 4⟩]⟩

/-- The demo tree: a root with a `level` flag, a middleware, no handler,
and four branches. -/
def demoRoot : Cmd :=
  .mk "prog" "demo program" [wrapMw "root"] none
    [("echo", demoEcho), ("repos", demoRepos), ("sib", demoSib), ("clash", demoClash)]
    ⟨[⟨"level", "log level", "info", 0⟩]⟩

/-- The demo root's flag set. -/
def rootFsLit : FlagSet := ⟨[⟨"level", "log level", "info", 0⟩]⟩

/-- The `echo` node's resolved flag set after the root's `level` was
propagated into it. -/
def echoResolvedFs : FlagSet :=
  ⟨[⟨"case", "casing", "", 1⟩, ⟨"level", "log level", "info", 0⟩]⟩

/-- The `repos` node's resolved flag set: only the propagated `level`. -/
def reposResolvedFs : FlagSet := ⟨[⟨"level", "log level", "info", 0⟩]⟩

/-- The `list` node's resolved flag set: its own `user` plus the
propagated `level`. -/
def listResolvedFs : FlagSet :=
  ⟨[⟨"user", "the user", "", 2⟩, ⟨"level", "log level", "info", 0⟩]⟩

/-- The dispatched path of `prog repos list x`. -/
def demoListTrace : List PathEntry :=
  [⟨"prog", rootFsLit, rootFsLit⟩,
   ⟨"repos", ⟨[]⟩, reposResolvedFs⟩,
   ⟨"list", ⟨[⟨"user", "the user", "", 2⟩]⟩, listResolvedFs⟩]

/-- The dispatch `prog repos list x` resolves to. -/
def demoListDispatch : CoreResult :=
  .dispatch demoFailHandler listResolvedFs ["x"] [wrapMw "root"] demoStore demoListTrace

/-- The dispatched path of `prog echo hi`. -/
def demoEchoTrace : List PathEntry :=
  [⟨"prog", rootFsLit, rootFsLit⟩,
   ⟨"echo", ⟨[⟨"case", "casing", "", 1⟩]⟩, echoResolvedFs⟩]

/-- The dispatch `prog echo hi` resolves to. -/
def demoEchoDispatch : CoreResult :=
  .dispatch demoEchoHandler echoResolvedFs ["hi"] [wrapMw "root", wrapMw "echo"] demoStore
    demoEchoTrace

/-- The store after `--level debug` was parsed at the root. -/
def demoStoreDebug : Store := ["debug", "", "", "false", ""]

/-- The `echo` node's resolved flag set when `level` was already set to
`debug` before propagation (the inherited default shows the current
value at registration time). -/
def echoResolvedFsDebug : FlagSet :=
  ⟨[⟨"case", "casing", "", 1⟩, ⟨"level", "log level", "debug", 0⟩]⟩

/-- The dispatched path of `prog --level debug echo hi`. -/
def demoEchoDebugTrace : List PathEntry :=
  [⟨"prog", rootFsLit, rootFsLit⟩,
   ⟨"echo", ⟨[⟨"case", "casing", "", 1⟩]⟩, echoResolvedFsDebug⟩]

/-- The dispatch `prog --level debug echo hi` resolves to. -/
def demoEchoDebugDispatch : CoreResult :=
  .dispatch demoEchoHandler echoResolvedFsDebug ["hi"] [wrapMw "root", wrapMw "echo"]
    demoStoreDebug demoEchoDebugTrace
theorem parseFlags_ok_length_aux (fs : FlagSet) :
    ∀ (n : Nat) (args : List String), args.length ≤ n → ∀ (store : Store) (rest : List String)
      (store' : Store), parseFlags fs args store = .ok rest store' → rest.length ≤ args.length := by
  intro n
  induction n with
  | zero =>
    intro args hlen store rest store' h
    cases args with
    | nil =>
      simp only [parseFlags] at h
      cases h
      exact Nat.le_refl _
    | cons s rest0 => simp at hlen
  | succ n ih =>
    intro args hlen store rest store' h
    cases args with
    | nil =>
      simp only [parseFlags] at h
      cases h
      exact Nat.le_refl _
    | cons s rest0 =>
      have hlen0 : rest0.length ≤ n := by simp at hlen; omega
      rw [parseFlags.eq_2] at h
      split at h
      · cases h; exact Nat.le_refl _
      · cases h; simp
      · cases h
      · cases h
      · cases h
      · have := ih rest0 hlen0 _ _ _ h
        simp
        omega
      · split at h
        · rename_i v rest2
          have hlen2 : rest2.length ≤ n := by simp at hlen0 ⊢; omega
          have := ih rest2 hlen2 _ _ _ h
          simp
          omega
        · cases h

theorem parseFlags_ok_length (fs : FlagSet) (args : List String) (store : Store)
    (rest : List String) (store' : Store) (h : parseFlags fs args store = .ok rest store') :
    rest.length ≤ args.length :=
  parseFlags_ok_length_aux fs args.length args (Nat.le_refl _) store rest store' h

theorem find?_append_none_left (a b : List FlagDef) (p : FlagDef → Bool)
    (h : (a ++ b).find? p = none) : a.find? p = none := by
  simp only [List.find?_eq_none, List.mem_append] at h ⊢
  intro x hx
  exact h x (Or.inl hx)

theorem find?_append_some_left (a b : List FlagDef) (p : FlagDef → Bool) (x : FlagDef)
    (h : a.find? p = some x) : (a ++ b).find? p = some x := by
  rw [List.find?_append, h]
  rfl

theorem lookup_ne_none_of_mem (fs : FlagSet) (f : FlagDef) (hf : f ∈ fs.flags) :
    fs.lookup f.name ≠ none := by
  intro h
  rw [FlagSet.lookup, List.find?_eq_none] at h
  exact h f hf (by simp)

theorem varRegister_ok (fs : FlagSet) (cell : Nat) (name u : String) (store : Store)
    (fs' : FlagSet) (h : varRegister fs cell name u store = .ok fs') :
    fs.lookup name = none ∧ fs'.flags = fs.flags ++ [⟨name, u, store.read cell, cell⟩] := by
  unfold varRegister at h
  split at h
  · cases h
  · cases h
    exact ⟨by assumption, rfl⟩

theorem propagateFlags_ok (store : Store) :
    ∀ (pf : List FlagDef) (child out : FlagSet),
      propagateFlags child pf store = .ok out →
      out.flags =
        child.flags ++ pf.map (fun f => ⟨f.name, f.usageText, store.read f.cell, f.cell⟩) ∧
      (∀ f ∈ pf, child.lookup f.name = none) ∧
      (pf.map (fun f => f.name)).Nodup := by
  intro pf
  induction pf with
  | nil =>
    intro child out h
    simp only [propagateFlags] at h
    cases h
    simp
  | cons f rest ih =>
    intro child out h
    simp only [propagateFlags] at h
    split at h
    · cases h
    · rename_i child' hvar
      obtain ⟨hnone, hflags⟩ := varRegister_ok _ _ _ _ _ _ hvar
      obtain ⟨h1, h2, h3⟩ := ih child' out h
      refine ⟨?_, ?_, ?_⟩
      · rw [h1, hflags]
        simp
      · intro g hg
        rcases List.mem_cons.mp hg with hgf | hgr
        · rw [hgf]; exact hnone
        · have := h2 g hgr
          rw [FlagSet.lookup, hflags] at this
          exact find?_append_none_left _ _ _ this
      · simp only [List.map_cons, List.nodup_cons]
        refine ⟨?_, h3⟩
        intro hmem
        obtain ⟨g, hgr, hgname⟩ := List.mem_map.mp hmem
        have := h2 g hgr
        have hmem' : (⟨f.name, f.usageText, store.read f.cell, f.cell⟩ : FlagDef) ∈ child'.flags := by
          rw [hflags]
          simp
        have hne := lookup_ne_none_of_mem child' _ hmem'
        rw [hgname] at this
        exact hne this

theorem propagateFlags_error_of_collision (store : Store) :
    ∀ (pf : List FlagDef) (child : FlagSet),
      (∃ f ∈ pf, child.lookup f.name ≠ none) →
      ∃ e, propagateFlags child pf store = .error e := by
  intro pf
  induction pf with
  | nil =>
    intro child h
    obtain ⟨f, hf, _⟩ := h
    cases hf
  | cons g rest ih =>
    intro child h
    simp only [propagateFlags]
    obtain ⟨f, hf, hlook⟩ := h
    cases hv : varRegister child g.cell g.name g.usageText store with
    | error e => exact ⟨e, rfl⟩
    | ok child' =>
      obtain ⟨hnone, hflags⟩ := varRegister_ok _ _ _ _ _ _ hv
      rcases List.mem_cons.mp hf with hfg | hfr
      · rw [hfg] at hlook
        exact absurd hnone hlook
      · have hlook' : child'.lookup f.name ≠ none := by
          intro hn
          rw [FlagSet.lookup, hflags] at hn
          exact hlook (find?_append_none_left _ _ _ hn)
        obtain ⟨e, he⟩ := ih child' ⟨f, hfr, hlook'⟩
        exact ⟨e, he⟩

theorem mem_insertSorted (f x : FlagDef) :
    ∀ (l : List FlagDef), x ∈ insertSorted f l ↔ x = f ∨ x ∈ l := by
  intro l
  induction l with
  | nil => simp [insertSorted]
  | cons g gs ih =>
    simp only [insertSorted]
    split
    · simp [List.mem_cons]
    · simp only [List.mem_cons, ih]
      tauto

theorem mem_sortFlags (x : FlagDef) : ∀ (l : List FlagDef), x ∈ sortFlags l ↔ x ∈ l := by
  intro l
  induction l with
  | nil => simp [sortFlags]
  | cons g gs ih =>
    simp only [sortFlags, List.foldr] at ih ⊢
    rw [mem_insertSorted]
    simp only [List.mem_cons, ih]

theorem find?_map_unique (store : Store) (n : String) (f : FlagDef) :
    ∀ (l : List FlagDef), (l.map (fun x => x.name)).Nodup → f ∈ l → f.name = n →
      ((l.map (fun x => (⟨x.name, x.usageText, store.read x.cell, x.cell⟩ : FlagDef))).find?
        (fun x => x.name == n)) = some ⟨f.name, f.usageText, store.read f.cell, f.cell⟩ := by
  intro l
  induction l with
  | nil =>
    intro _ hf
    cases hf
  | cons g gs ih =>
    intro hnd hf hname
    rcases List.mem_cons.mp hf with hfg | hfr
    · subst hfg
      rw [List.map_cons, List.find?_cons_of_pos _ (by simp [hname])]
    · have hg : g.name ≠ n := by
        intro he
        have hmem : f.name ∈ gs.map (fun x => x.name) := List.mem_map.mpr ⟨f, hfr, rfl⟩
        rw [hname, ← he] at hmem
        exact (List.nodup_cons.mp hnd).1 hmem
      rw [List.map_cons, List.find?_cons_of_neg _ (by simp [hg])]
      exact ih (List.nodup_cons.mp hnd).2 hfr hname

theorem propagate_lookup_preserved (store : Store) (parentFs child out : FlagSet)
    (h : propagateFlags child (sortFlags parentFs.flags) store = .ok out)
    (n : String) (f : FlagDef) (hl : parentFs.lookup n = some f) :
    out.lookup n = some ⟨f.name, f.usageText, store.read f.cell, f.cell⟩ := by
  obtain ⟨heq, hdisj, hnodup⟩ := propagateFlags_ok store _ child out h
  have hfname : f.name = n := by
    have := List.find?_some hl
    simpa using this
  have hfmem : f ∈ parentFs.flags := List.mem_of_find?_eq_some hl
  have hfsorted : f ∈ sortFlags parentFs.flags := (mem_sortFlags f _).mpr hfmem
  have hchild : child.lookup n = none := by
    have := hdisj f hfsorted
    rwa [hfname] at this
  rw [FlagSet.lookup, heq, List.find?_append]
  rw [FlagSet.lookup] at hchild
  rw [hchild]
  rw [Option.none_or]
  exact find?_map_unique store n f _ hnodup hfsorted hfname

theorem propagate_mem_preserved (store : Store) (parentFs child out : FlagSet)
    (h : propagateFlags child (sortFlags parentFs.flags) store = .ok out)
    (f : FlagDef) (hf : f ∈ parentFs.flags) :
    ∃ g ∈ out.flags, g.name = f.name ∧ g.cell = f.cell := by
  obtain ⟨heq, _, _⟩ := propagateFlags_ok store _ child out h
  refine ⟨⟨f.name, f.usageText, store.read f.cell, f.cell⟩, ?_, rfl, rfl⟩
  rw [heq]
  refine List.mem_append_right _ ?_
  exact List.mem_map.mpr ⟨f, (mem_sortFlags f _).mpr hf, rfl⟩

theorem propagate_names_sub (store : Store) (parentFs child out : FlagSet)
    (h : propagateFlags child (sortFlags parentFs.flags) store = .ok out)
    (g : FlagDef) (hg : g ∈ out.flags) :
    g.name ∈ child.names ∨ g.name ∈ parentFs.names := by
  obtain ⟨heq, _, _⟩ := propagateFlags_ok store _ child out h
  rw [heq] at hg
  rcases List.mem_append.mp hg with hgl | hgr
  · exact Or.inl (List.mem_map.mpr ⟨g, hgl, rfl⟩)
  · obtain ⟨x, hx, hxg⟩ := List.mem_map.mp hgr
    right
    refine List.mem_map.mpr ⟨x, (mem_sortFlags x _).mp hx, ?_⟩
    rw [← hxg]

theorem finalize_trace (cur : Cmd) (curFs : FlagSet) (rest : List String) (store : Store)
    (mws : List Middleware) (anc : List String) (trace : List PathEntry) :
    (finalize cur curFs rest store mws anc trace).trace = trace := by
  rw [finalize.eq_def]
  cases cur.handler with
  | none =>
    cases rest with
    | nil => rfl
    | cons tok rs => rfl
  | some h => rfl

theorem execLoop_total :
    ∀ (fuel : Nat) (args : List String), args.length < fuel →
      ∀ (cur : Cmd) (curFs : FlagSet) (store : Store) (mws : List Middleware)
        (anc : List String) (trace : List PathEntry),
        (execLoop fuel cur curFs args store mws anc trace).isSome := by
  intro fuel
  induction fuel with
  | zero =>
    intro args h
    omega
  | succ n ih =>
    intro args h cur curFs store mws anc trace
    simp only [execLoop]
    cases hp : parseFlags curFs args store with
    | err msg store' => simp
    | help store' => simp
    | ok rest store' =>
      cases rest with
      | nil => simp
      | cons tok restTail =>
        cases hc : cur.findChild tok with
        | none => simp [hc]
        | some sub =>
          cases hpr : propagateFlags sub.flagSet (sortFlags curFs.flags) store' with
          | error pm => simp [hc, hpr]
          | ok subFs =>
            simp only [hc, hpr]
            have hlen := parseFlags_ok_length curFs args store _ _ hp
            simp only [List.length_cons] at hlen
            exact ih restTail (by omega) sub subFs store' (mws ++ sub.middlewares)
              (anc ++ [cur.name]) (trace ++ [⟨tok, sub.flagSet, subFs⟩])

theorem execLoop_resolveSpec :
    ∀ (fuel : Nat) (cur : Cmd) (curFs : FlagSet) (args : List String) (store : Store)
      (anc : List String) (node : Cmd) (fs' : FlagSet) (rem : List String) (store' : Store)
      (anc' : List String),
      resolveSpecAux fuel cur curFs args store anc = some (node, fs', rem, store', anc') →
      ∀ (mws : List Middleware) (trace : List PathEntry), ∃ mws' trace',
        execLoop fuel cur curFs args store mws anc trace =
          some (finalize node fs' rem store' mws' anc' trace') := by
  intro fuel
  induction fuel with
  | zero =>
    intro cur curFs args store anc node fs' rem store' anc' h
    simp [resolveSpecAux] at h
  | succ n ih =>
    intro cur curFs args store anc node fs' rem store' anc' h mws trace
    cases hp : parseFlags curFs args store with
    | err m s2 => simp [resolveSpecAux, hp] at h
    | help s2 => simp [resolveSpecAux, hp] at h
    | ok rest s2 =>
      cases rest with
      | nil =>
        simp only [resolveSpecAux, hp, Option.some.injEq, Prod.mk.injEq] at h
        obtain ⟨e1, e2, e3, e4, e5⟩ := h
        subst e1 e2 e3 e4 e5
        simp only [execLoop, hp]
        exact ⟨mws, trace, rfl⟩
      | cons tok restTail =>
        cases hc : cur.findChild tok with
        | none =>
          simp only [resolveSpecAux, hp, hc, Option.some.injEq, Prod.mk.injEq] at h
          obtain ⟨e1, e2, e3, e4, e5⟩ := h
          subst e1 e2 e3 e4 e5
          simp only [execLoop, hp, hc]
          exact ⟨mws, trace, rfl⟩
        | some sub =>
          cases hpr : propagateFlags sub.flagSet (sortFlags curFs.flags) s2 with
          | error e => simp [resolveSpecAux, hp, hc, hpr] at h
          | ok subFs =>
            simp only [resolveSpecAux, hp, hc, hpr] at h
            simp only [execLoop, hp, hc, hpr]
            exact ih sub subFs restTail s2 (anc ++ [cur.name]) node fs' rem store' anc' h
              (mws ++ sub.middlewares) (trace ++ [⟨tok, sub.flagSet, subFs⟩])

def entryInherits (e e' : PathEntry) : Prop :=
  (∀ f ∈ e.resolvedFs.flags, ∃ g ∈ e'.resolvedFs.flags, g.name = f.name ∧ g.cell = f.cell) ∧
  (∀ (n : String) (f : FlagDef), e.resolvedFs.lookup n = some f →
    ∃ g, e'.resolvedFs.lookup n = some g ∧ g.cell = f.cell)

def traceInv (tr : List PathEntry) : Prop :=
  (∀ (i j : Nat) (hi : i < tr.length) (hj : j < tr.length), i ≤ j →
    entryInherits (tr.get ⟨i, hi⟩) (tr.get ⟨j, hj⟩)) ∧
  (∀ (j : Nat) (hj : j < tr.length), ∀ g ∈ (tr.get ⟨j, hj⟩).resolvedFs.flags,
    ∃ (k : Nat) (hk : k < tr.length), k ≤ j ∧ g.name ∈ (tr.get ⟨k, hk⟩).localFs.names)

theorem entryInherits_refl (e : PathEntry) : entryInherits e e :=
  ⟨fun f hf => ⟨f, hf, rfl, rfl⟩, fun _ f hf => ⟨f, hf, rfl⟩⟩

theorem entryInherits_trans {a b c : PathEntry} (h1 : entryInherits a b)
    (h2 : entryInherits b c) : entryInherits a c := by
  constructor
  · intro f hf
    obtain ⟨g, hg, hgn, hgc⟩ := h1.1 f hf
    obtain ⟨g2, hg2, hg2n, hg2c⟩ := h2.1 g hg
    exact ⟨g2, hg2, hg2n.trans hgn, hg2c.trans hgc⟩
  · intro n f hf
    obtain ⟨g, hg, hgc⟩ := h1.2 n f hf
    obtain ⟨g2, hg2, hg2c⟩ := h2.2 n g hg
    exact ⟨g2, hg2, hg2c.trans hgc⟩

theorem entryInherits_step (store : Store) (e : PathEntry) (tok : String) (subLocal : FlagSet)
    (subFs : FlagSet) (h : propagateFlags subLocal (sortFlags e.resolvedFs.flags) store = .ok subFs) :
    entryInherits e ⟨tok, subLocal, subFs⟩ := by
  constructor
  · intro f hf
    exact propagate_mem_preserved store e.resolvedFs subLocal subFs h f hf
  · intro n f hf
    exact ⟨_, propagate_lookup_preserved store e.resolvedFs subLocal subFs h n f hf, rfl⟩

theorem traceInv_single (e : PathEntry) (h : e.resolvedFs = e.localFs) : traceInv [e] := by
  constructor
  · intro i j hi hj _
    have : i = 0 := Nat.lt_one_iff.mp hi
    have : j = 0 := Nat.lt_one_iff.mp hj
    subst this
    subst ‹i = 0›
    exact entryInherits_refl e
  · intro j hj g hg
    have hj0 : j = 0 := Nat.lt_one_iff.mp hj
    subst hj0
    refine ⟨0, hj, Nat.le_refl _, ?_⟩
    simp only [List.get] at hg ⊢
    rw [← h]
    exact List.mem_map.mpr ⟨g, hg, rfl⟩

theorem get_append_left' (tr : List PathEntry) (e' : PathEntry) (i : Nat) (hi : i < tr.length)
    (hi' : i < (tr ++ [e']).length) : (tr ++ [e']).get ⟨i, hi'⟩ = tr.get ⟨i, hi⟩ := by
  simp [List.get_eq_getElem, List.getElem_append_left hi]

theorem get_append_last (tr : List PathEntry) (e' : PathEntry)
    (h : tr.length < (tr ++ [e']).length) : (tr ++ [e']).get ⟨tr.length, h⟩ = e' := by
  simp [List.get_eq_getElem, List.getElem_append_right (Nat.le_refl tr.length)]

theorem getLast_eq_get' (tr : List PathEntry) (hne : tr ≠ [])
    (h : tr.length - 1 < tr.length) : tr.getLast hne = tr.get ⟨tr.length - 1, h⟩ := by
  rw [List.getLast_eq_getElem]
  simp [List.get_eq_getElem]

theorem traceInv_append (tr : List PathEntry) (e' : PathEntry) (hinv : traceInv tr)
    (hne : tr ≠ [])
    (hstep : entryInherits (tr.getLast hne) e')
    (horig : ∀ g ∈ e'.resolvedFs.flags,
      g.name ∈ e'.localFs.names ∨ g.name ∈ (tr.getLast hne).resolvedFs.names) :
    traceInv (tr ++ [e']) := by
  have hL : 0 < tr.length := List.length_pos.mpr hne
  have hlast : tr.length - 1 < tr.length := by omega
  have hlen : (tr ++ [e']).length = tr.length + 1 := by simp
  constructor
  · intro i j hi hj hij
    by_cases hjL : j < tr.length
    · have hiL : i < tr.length := by omega
      rw [get_append_left' tr e' i hiL hi, get_append_left' tr e' j hjL hj]
      exact hinv.1 i j hiL hjL hij
    · have hjeq : j = tr.length := by omega
      subst hjeq
      rw [get_append_last tr e' hj]
      by_cases hiL : i < tr.length
      · rw [get_append_left' tr e' i hiL hi]
        refine entryInherits_trans ?_ hstep
        rw [getLast_eq_get' tr hne hlast]
        exact hinv.1 i (tr.length - 1) hiL hlast (by omega)
      · have hieq : i = tr.length := by omega
        subst hieq
        rw [get_append_last tr e' hi]
        exact entryInherits_refl e'
  · intro j hj g hg
    by_cases hjL : j < tr.length
    · rw [get_append_left' tr e' j hjL hj] at hg
      obtain ⟨k, hk, hkj, hkmem⟩ := hinv.2 j hjL g hg
      refine ⟨k, by omega, hkj, ?_⟩
      rw [get_append_left' tr e' k hk]
      exact hkmem
    · have hjeq : j = tr.length := by omega
      subst hjeq
      rw [get_append_last tr e' hj] at hg
      rcases horig g hg with hl | hr
      · refine ⟨tr.length, hj, Nat.le_refl _, ?_⟩
        rw [get_append_last tr e' hj]
        exact hl
      · obtain ⟨f, hf, hfn⟩ := List.mem_map.mp hr
        rw [getLast_eq_get' tr hne hlast] at hf
        obtain ⟨k, hk, hkj, hkmem⟩ := hinv.2 (tr.length - 1) hlast f hf
        refine ⟨k, by omega, by omega, ?_⟩
        rw [get_append_left' tr e' k hk]
        rw [← hfn]
        exact hkmem

theorem execLoop_traceInv :
    ∀ (fuel : Nat) (cur : Cmd) (curFs : FlagSet) (args : List String) (store : Store)
      (mws : List Middleware) (anc : List String) (trace : List PathEntry) (r : CoreResult),
      execLoop fuel cur curFs args store mws anc trace = some r →
      traceInv trace →
      ∀ (hne : trace ≠ []), (trace.getLast hne).resolvedFs = curFs →
      traceInv r.trace := by
  intro fuel
  induction fuel with
  | zero =>
    intro cur curFs args store mws anc trace r h
    cases h
  | succ n ih =>
    intro cur curFs args store mws anc trace r h hinv hne hlast
    cases hp : parseFlags curFs args store with
    | err m s2 =>
      simp only [execLoop, hp, Option.some.injEq] at h
      rw [← h]
      exact hinv
    | help s2 =>
      simp only [execLoop, hp, Option.some.injEq] at h
      rw [← h]
      exact hinv
    | ok rest s2 =>
      cases rest with
      | nil =>
        simp only [execLoop, hp, Option.some.injEq] at h
        rw [← h, finalize_trace]
        exact hinv
      | cons tok restTail =>
        cases hc : cur.findChild tok with
        | none =>
          simp only [execLoop, hp, hc, Option.some.injEq] at h
          rw [← h, finalize_trace]
          exact hinv
        | some sub =>
          cases hpr : propagateFlags sub.flagSet (sortFlags curFs.flags) s2 with
          | error e =>
            simp only [execLoop, hp, hc, hpr, Option.some.injEq] at h
            rw [← h]
            exact hinv
          | ok subFs =>
            simp only [execLoop, hp, hc, hpr] at h
            have hstep : entryInherits (trace.getLast hne) ⟨tok, sub.flagSet, subFs⟩ := by
              refine entryInherits_step s2 _ tok sub.flagSet subFs ?_
              rw [hlast]
              exact hpr
            have horig : ∀ g ∈ (⟨tok, sub.flagSet, subFs⟩ : PathEntry).resolvedFs.flags,
                g.name ∈ (⟨tok, sub.flagSet, subFs⟩ : PathEntry).localFs.names ∨
                g.name ∈ (trace.getLast hne).resolvedFs.names := by
              intro g hg
              rw [hlast]
              exact propagate_names_sub s2 curFs sub.flagSet subFs hpr g hg
            have hne' : trace ++ [(⟨tok, sub.flagSet, subFs⟩ : PathEntry)] ≠ [] := by
              simp
            refine ih sub subFs restTail s2 (mws ++ sub.middlewares) (anc ++ [cur.name]) _ r h
              (traceInv_append trace _ hinv hne hstep horig) hne' ?_
            rw [List.getLast_concat]

theorem executeCore_traceInv (c : Cmd) (args : List String) (store : Store) (r : CoreResult)
    (h : executeCore c args store = some r) : traceInv r.trace := by
  rw [executeCore] at h
  refine execLoop_traceInv _ c c.flagSet args store c.middlewares [] _ r h ?_ (by simp) rfl
  exact traceInv_single _ rfl

theorem composeMiddlewares_wrapMw (tags : List String) (hand : Handler) (fs : FlagSet)
    (st : Store) (args : List String) :
    composeMiddlewares (tags.map wrapMw) hand fs st args =
      ⟨tags.map (fun t => t ++ ":before") ++ (hand fs st args).out ++
        tags.reverse.map (fun t => t ++ ":after"), (hand fs st args).err⟩ := by
  induction tags with
  | nil => simp [composeMiddlewares]
  | cons t ts ih =>
    simp only [List.map_cons, composeMiddlewares, List.foldr] at ih ⊢
    rw [wrapMw]
    simp only [ih, List.reverse_cons, List.map_append, List.map_cons]
    simp [List.append_assoc]

theorem classifyTok_unknown (fs : FlagSet) (s n : String) (htn : flagTokenName s = some n)
    (hlk : fs.lookup n = none) (h1 : n ≠ "help") (h2 : n ≠ "h") :
    classifyTok fs s = .unknown n := by
  rw [flagTokenName] at htn
  rw [classifyTok]
  cases hts : tokShape s with
  | stop => rw [hts] at htn; cases htn
  | terminator => rw [hts] at htn; cases htn
  | bad msg => rw [hts] at htn; cases htn
  | flagged name v =>
    rw [hts] at htn
    cases htn
    simp only [hlk]
    rw [if_neg ?_]
    intro hor
    rcases hor with hh | hh
    · exact h1 hh
    · exact h2 hh

theorem setAssoc_find (n : String) (v : Cmd) :
    ∀ (l : List (String × Cmd)), (setAssoc l n v).find? (fun p => p.1 == n) = some (n, v) := by
  intro l
  induction l with
  | nil => simp [setAssoc]
  | cons p ps ih =>
    rw [setAssoc]
    split
    · rw [List.find?_cons_of_pos _ (by simp)]
    · rw [List.find?_cons_of_neg _ (by simp; assumption)]
      exact ih

theorem classifyTok_help (fs : FlagSet) (s n : String) (htn : flagTokenName s = some n)
    (hlk : fs.lookup n = none) (h : n = "help" ∨ n = "h") :
    classifyTok fs s = .wantHelp := by
  rw [flagTokenName] at htn
  rw [classifyTok]
  cases hts : tokShape s with
  | stop => rw [hts] at htn; cases htn
  | terminator => rw [hts] at htn; cases htn
  | bad msg => rw [hts] at htn; cases htn
  | flagged name v =>
    rw [hts] at htn
    cases htn
    simp only [hlk]
    rw [if_pos h]

/-- C1: for every command tree and argument list, `Execute` resolves the
node that repeated parse-and-descend resolution reaches and, when that
node has a handler, dispatches exactly that handler on exactly the
residual positional tokens, returning what the composed handler
returns. -/
theorem c1_execute_invokes_resolved_handler (c : Cmd) (args : List String) (store : Store)
    (node : Cmd) (fs' : FlagSet) (rem : List String) (store' : Store) (anc' : List String)
    (hand : Handler)
    (hres : resolveSpec c args store = some (node, fs', rem, store', anc'))
    (hh : node.handler = some hand) :
    ∃ (mws : List Middleware) (trace : List PathEntry),
      executeCore c args store = some (.dispatch hand fs' rem mws store' trace) ∧
      Cmd.execute c args store =
        some (.returned (composeMiddlewares mws hand fs' store' rem).out
          (composeMiddlewares mws hand fs' store' rem).err) := by
  rw [resolveSpec] at hres
  obtain ⟨mws', trace', he⟩ := execLoop_resolveSpec (args.length + 1) c c.flagSet args store []
    node fs' rem store' anc' hres c.middlewares [⟨c.name, c.flagSet, c.flagSet⟩]
  have hcore : executeCore c args store = some (.dispatch hand fs' rem mws' store' trace') := by
    rw [executeCore, he]
    simp only [finalize.eq_def, hh]
  exact ⟨mws', trace', hcore, by simp only [Cmd.execute, hcore]⟩

/-- C4: a dispatch that resolves to a node without a handler prints usage
and exits 0 when no positional argument remains, and prints `command
provided but not defined` plus usage and exits 2 when one does. -/
theorem c4_router_usage_or_error (c : Cmd) (args : List String) (store : Store)
    (node : Cmd) (fs' : FlagSet) (rem : List String) (store' : Store) (anc' : List String)
    (hres : resolveSpec c args store = some (node, fs', rem, store', anc'))
    (hh : node.handler = none) :
    ∃ (trace : List PathEntry),
      (rem = [] → executeCore c args store =
        some (.exit 0 (node.usageRender fs' anc') store' trace)) ∧
      (∀ tok rs, rem = tok :: rs → executeCore c args store =
        some (.exit 2 ("command provided but not defined: " ++ tok ++ "\n" ++
          node.usageRender fs' anc') store' trace)) := by
  rw [resolveSpec] at hres
  obtain ⟨mws', trace', he⟩ := execLoop_resolveSpec (args.length + 1) c c.flagSet args store []
    node fs' rem store' anc' hres c.middlewares [⟨c.name, c.flagSet, c.flagSet⟩]
  refine ⟨trace', ?_, ?_⟩
  · intro hrem
    subst hrem
    rw [executeCore, he]
    simp only [finalize.eq_def, hh]
  · intro tok rs hrem
    subst hrem
    rw [executeCore, he]
    simp only [finalize.eq_def, hh]

/-- C5 (amended): a leading well-formed flag token whose name matches no
declared flag makes the dispatch loop terminate the process rather than
return an error to the caller: with exit status 2 and the error message
plus usage, unless the name is `help` or `h`, in which case the usage
text is printed and the exit status is 0. -/
theorem c5_unknown_flag_terminates (fuel : Nat) (cur : Cmd) (curFs : FlagSet) (s : String)
    (rest : List String) (store : Store) (mws : List Middleware) (anc : List String)
    (trace : List PathEntry) (n : String)
    (htn : flagTokenName s = some n) (hlk : curFs.lookup n = none) :
    (n ≠ "help" → n ≠ "h" →
      execLoop (fuel + 1) cur curFs (s :: rest) store mws anc trace =
        some (.exit 2 ("flag provided but not defined: -" ++ n ++ "\n" ++
          cur.usageRender curFs anc) store trace)) ∧
    (n = "help" ∨ n = "h" →
      execLoop (fuel + 1) cur curFs (s :: rest) store mws anc trace =
        some (.exit 0 (cur.usageRender curFs anc) store trace)) := by
  constructor
  · intro h1 h2
    have hcl := classifyTok_unknown curFs s n htn hlk h1 h2
    have hp : parseFlags curFs (s :: rest) store =
        .err ("flag provided but not defined: -" ++ n ++ "\n") store := by
      rw [parseFlags.eq_2]
      simp only [hcl]
    simp only [execLoop, hp]
  · intro h
    have hcl := classifyTok_help curFs s n htn hlk h
    have hp : parseFlags curFs (s :: rest) store = .help store := by
      rw [parseFlags.eq_2]
      simp only [hcl]
    simp only [execLoop, hp]

/-- C6: when dispatch resolves a handler, `Execute` returns exactly what
the composed handler returns - the error value is neither transformed
nor printed by the engine. -/
theorem c6_handler_error_propagates (c : Cmd) (args : List String) (store : Store)
    (hand : Handler) (fs : FlagSet) (rem : List String) (mws : List Middleware)
    (store' : Store) (trace : List PathEntry)
    (h : executeCore c args store = some (.dispatch hand fs rem mws store' trace)) :
    Cmd.execute c args store =
      some (.returned (composeMiddlewares mws hand fs store' rem).out
        (composeMiddlewares mws hand fs store' rem).err) := by
  simp only [Cmd.execute, h]

/-- C3: the middleware accumulated root-to-leaf is composed by folding
from last-appended to first-appended, so with tracing middleware the
observed order is first-appended-before first, last-appended-before
last, then the handler, then the after-parts in reverse order. -/
theorem c3_middleware_order (c : Cmd) (args : List String) (store : Store)
    (hand : Handler) (fs : FlagSet) (rem : List String) (tags : List String)
    (store' : Store) (trace : List PathEntry)
    (h : executeCore c args store =
      some (.dispatch hand fs rem (tags.map wrapMw) store' trace)) :
    Cmd.execute c args store =
      some (.returned
        (tags.map (fun t => t ++ ":before") ++ (hand fs store' rem).out ++
          tags.reverse.map (fun t => t ++ ":after"))
        (hand fs store' rem).err) := by
  simp only [Cmd.execute, h]
  rw [composeMiddlewares_wrapMw]

/-- C2: along the dispatched path, every flag of an earlier resolved
flag set persists by name and value cell in every later resolved flag
set, and every flag of a resolved flag set was declared locally at or
above that node - so a flag declared only on a sibling branch is
absent. -/
theorem c2_flags_inherited_along_path (c : Cmd) (args : List String) (store : Store)
    (r : CoreResult) (h : executeCore c args store = some r)
    (i j : Nat) (hi : i < r.trace.length) (hj : j < r.trace.length) (hij : i ≤ j) :
    (∀ f ∈ (r.trace.get ⟨i, hi⟩).resolvedFs.flags,
      ∃ g ∈ (r.trace.get ⟨j, hj⟩).resolvedFs.flags, g.name = f.name ∧ g.cell = f.cell) ∧
    (∀ g ∈ (r.trace.get ⟨j, hj⟩).resolvedFs.flags,
      ∃ (k : Nat) (hk : k < r.trace.length), k ≤ j ∧
        g.name ∈ (r.trace.get ⟨k, hk⟩).localFs.names) := by
  have hinv := executeCore_traceInv c args store r h
  exact ⟨(hinv.1 i j hi hj hij).1, hinv.2 j hj⟩

/-- C10: flag propagation registers the ancestor's value cell itself, so
looking the same flag name up through any two resolved flag sets of the
dispatched path yields the same cell, and hence the same current value
in any store. -/
theorem c10_propagated_flags_share_cells (c : Cmd) (args : List String) (store : Store)
    (r : CoreResult) (h : executeCore c args store = some r)
    (i j : Nat) (hi : i < r.trace.length) (hj : j < r.trace.length) (hij : i ≤ j)
    (n : String) (f g : FlagDef)
    (hf : (r.trace.get ⟨i, hi⟩).resolvedFs.lookup n = some f)
    (hg : (r.trace.get ⟨j, hj⟩).resolvedFs.lookup n = some g) :
    g.cell = f.cell ∧ ∀ st : Store, st.read g.cell = st.read f.cell := by
  have hinv := executeCore_traceInv c args store r h
  obtain ⟨g2, hg2, hc2⟩ := (hinv.1 i j hi hj hij).2 n f hf
  rw [hg] at hg2
  injection hg2 with hgg
  subst hgg
  exact ⟨hc2, fun st => by rw [hc2]⟩

/-- C8: descending into a child whose own flag set already declares a
name that an ancestor flag carries makes dispatch panic at the duplicate
registration instead of shadowing or merging. -/
theorem c8_duplicate_flag_panics (fuel : Nat) (cur : Cmd) (curFs : FlagSet)
    (args : List String) (store : Store) (mws : List Middleware) (anc : List String)
    (trace : List PathEntry) (store' : Store) (tok : String) (restTail : List String)
    (sub : Cmd) (f : FlagDef)
    (hp : parseFlags curFs args store = .ok (tok :: restTail) store')
    (hc : cur.findChild tok = some sub)
    (hf : f ∈ curFs.flags) (hdup : sub.flagSet.lookup f.name ≠ none) :
    ∃ pm, execLoop (fuel + 1) cur curFs args store mws anc trace =
      some (.panicked pm store' trace) := by
  obtain ⟨e, he⟩ := propagateFlags_error_of_collision store' (sortFlags curFs.flags)
    sub.flagSet ⟨f, (mem_sortFlags f _).mpr hf, hdup⟩
  refine ⟨e, ?_⟩
  simp only [execLoop, hp, hc, he]

/-- C9: calling `SubCommand` twice with one name silently replaces the
first child by a fresh node - empty flag set, no handler, no children -
discarding whatever was configured on the first child, and the second
call's handle is that fresh node. -/
theorem c9_subcommand_overwrites (c : Cmd) (n : String) (cfg : Cmd → Cmd) :
    (((c.subCommand n).1.configureChild n cfg).subCommand n).2 = Cmd.freshNode n ∧
    (((c.subCommand n).1.configureChild n cfg).subCommand n).1.findChild n =
      some (Cmd.freshNode n) ∧
    Cmd.freshNode n = Cmd.mk n "" [] none [] ⟨[]⟩ := by
  refine ⟨rfl, ?_, rfl⟩
  simp only [Cmd.subCommand, Cmd.configureChild, Cmd.findChild, Cmd.subCommands]
  rw [setAssoc_find]
  rfl

/-- C7: the usage renderer produces exactly the text claim C7 describes:
path line with conditional options and subcommand markers, then help,
flags, and children. -/
theorem c7_usage_renders_as_specified (c : Cmd) (fs : FlagSet) (anc : List String) :
    c.usageRender fs anc =
      usageSpecOf c.name c.help c.handler.isSome
        (c.subCommands.map (fun p => (p.1, p.2.help))) fs anc := by
  rw [Cmd.usageRender, usageOf, usageSpecOf]
  by_cases hf : fs.flags = [] <;> by_cases hcs : c.subCommands = [] <;>
    simp [hf, hcs, List.length_pos, String.append_assoc]

/-- Witness for C1: `prog echo hello world` dispatches the echo handler
on exactly `hello world`. -/
theorem c1_witness :
    ∃ (mws : List Middleware) (trace : List PathEntry),
      executeCore demoRoot ["echo", "hello", "world"] demoStore =
        some (.dispatch demoEchoHandler echoResolvedFs ["hello", "world"] mws demoStore trace) ∧
      Cmd.execute demoRoot ["echo", "hello", "world"] demoStore =
        some (.returned
          (composeMiddlewares mws demoEchoHandler echoResolvedFs demoStore
            ["hello", "world"]).out
          (composeMiddlewares mws demoEchoHandler echoResolvedFs demoStore
            ["hello", "world"]).err) :=
  c1_execute_invokes_resolved_handler demoRoot ["echo", "hello", "world"] demoStore demoEcho
    echoResolvedFs ["hello", "world"] demoStore ["prog"] demoEchoHandler rfl rfl

/-- Witness for C2: after `prog repos list x`, the root's `level` flag is
present with its cell in the leaf's resolved flag set, while the sibling
branch's `verbose` is absent. -/
theorem c2_witness :
    (∃ g ∈ listResolvedFs.flags, g.name = "level" ∧ g.cell = 0) ∧
    "verbose" ∉ listResolvedFs.names := by
  constructor
  · exact (c2_flags_inherited_along_path demoRoot ["repos", "list", "x"] demoStore
      demoListDispatch rfl 0 2 (by decide) (by decide) (by decide)).1
      ⟨"level", "log level", "info", 0⟩ (by decide)
  · decide

/-- Witness for C3: `prog echo hi` runs root middleware outermost and
echo middleware innermost around the handler. -/
theorem c3_witness :
    Cmd.execute demoRoot ["echo", "hi"] demoStore =
      some (.returned
        (["root", "echo"].map (fun t => t ++ ":before") ++
          (demoEchoHandler echoResolvedFs demoStore ["hi"]).out ++
          ["root", "echo"].reverse.map (fun t => t ++ ":after"))
        (demoEchoHandler echoResolvedFs demoStore ["hi"]).err) :=
  c3_middleware_order demoRoot ["echo", "hi"] demoStore demoEchoHandler echoResolvedFs ["hi"]
    ["root", "echo"] demoStore demoEchoTrace rfl

/-- Witness for C4: `prog repos bogus` exits 2 with the error message
plus the router's usage. -/
theorem c4_witness :
    ∃ (trace : List PathEntry),
      ((["bogus"] : List String) = [] →
        executeCore demoRoot ["repos", "bogus"] demoStore =
          some (.exit 0 (demoRepos.usageRender reposResolvedFs ["prog"]) demoStore trace)) ∧
      (∀ tok rs, (["bogus"] : List String) = tok :: rs →
        executeCore demoRoot ["repos", "bogus"] demoStore =
          some (.exit 2 ("command provided but not defined: " ++ tok ++ "\n" ++
            demoRepos.usageRender reposResolvedFs ["prog"]) demoStore trace)) :=
  c4_router_usage_or_error demoRoot ["repos", "bogus"] demoStore demoRepos reposResolvedFs
    ["bogus"] demoStore ["prog"] rfl rfl

/-- Counterexample for C5 as stated: `-h` carries a flag marker and
matches no declared flag of the root, yet the process exits with status
0, not 2. -/
theorem c5_help_counterexample :
    flagTokenName "-h" = some "h" ∧ demoRoot.flagSet.lookup "h" = none ∧
    (Cmd.execute demoRoot ["-h"] demoStore).map exitCodeOf = some (some 0) ∧
    some (some 0) ≠ some (some (2 : Nat)) := by
  decide

/-- Witness for the amended C5: an unknown `-nope` exits 2 with the
error message plus usage. -/
theorem c5_witness :
    execLoop 1 demoRoot rootFsLit ["-nope"] demoStore [] [] [] =
      some (.exit 2 ("flag provided but not defined: -" ++ "nope" ++ "\n" ++
        demoRoot.usageRender rootFsLit []) demoStore []) :=
  (c5_unknown_flag_terminates 0 demoRoot rootFsLit "-nope" [] demoStore [] [] [] "nope"
    (by decide) (by decide)).1 (by decide) (by decide)

/-- Witness for C6: the `boom` error of the list handler reaches the
caller through `Execute` unchanged. -/
theorem c6_witness :
    Cmd.execute demoRoot ["repos", "list", "x"] demoStore =
      some (.returned
        (composeMiddlewares [wrapMw "root"] demoFailHandler listResolvedFs demoStore ["x"]).out
        (composeMiddlewares [wrapMw "root"] demoFailHandler listResolvedFs demoStore
          ["x"]).err) :=
  c6_handler_error_propagates demoRoot ["repos", "list", "x"] demoStore demoFailHandler
    listResolvedFs ["x"] [wrapMw "root"] demoStore demoListTrace rfl

/-- Witness for C8: `prog clash` panics because the `clash` node
declares `level` which the root also declares. -/
theorem c8_witness :
    ∃ pm, execLoop 1 demoRoot rootFsLit ["clash"] demoStore [] [] [] =
      some (.panicked pm demoStore []) :=
  c8_duplicate_flag_panics 0 demoRoot rootFsLit ["clash"] demoStore [] [] [] demoStore "clash"
    [] demoClash ⟨"level", "log level", "info", 0⟩ (by decide) rfl (by decide) (by decide)

/-- Witness for C10: after `prog --level debug echo hi`, the root's and
the leaf's `level` entries differ in recorded default but share cell 0,
so both observe the parsed value `debug`. -/
theorem c10_witness :
    (⟨"level", "log level", "debug", 0⟩ : FlagDef).cell =
      (⟨"level", "log level", "info", 0⟩ : FlagDef).cell ∧
    demoStoreDebug.read (⟨"level", "log level", "debug", 0⟩ : FlagDef).cell =
      demoStoreDebug.read (⟨"level", "log level", "info", 0⟩ : FlagDef).cell := by
  have h := c10_propagated_flags_share_cells demoRoot ["--level", "debug", "echo", "hi"]
    demoStore demoEchoDebugDispatch rfl 0 1 (by decide) (by decide) (by decide) "level"
    ⟨"level", "log level", "info", 0⟩ ⟨"level", "log level", "debug", 0⟩ (by decide) (by decide)
  exact ⟨h.1, h.2 demoStoreDebug⟩
